import Mathlib

/-!
Shallow embedding of the cellular-automaton engine in `src/lib.rs`
(crate `cellular-automata`).  The grid is a list of columns (the Rust
`[[State; N]; N]` indexed `grid[x][y]`), fallible operations (Rust
panics on out-of-range direct indexing) return `Option`, and the
`usize` cast of signed neighbour offsets is modelled by reduction
modulo `2 ^ 64`.
-/

namespace CellAuto

/-- The two-valued cell state (`enum State` in the source). -/
inductive State where
  | Full : State
  | Empty : State
deriving DecidableEq, Repr

/-- `State::next` from the source. -/
def State.next : State → State
  | State.Full => State.Empty
  | State.Empty => State.Full

/-- `State::prev` from the source. -/
def State.prev : State → State
  | State.Full => State.Empty
  | State.Empty => State.Full

/-- `impl Default for State` from the source. -/
def State.default : State := State.Empty

/-- The grid: a list of columns, `grid[x][y]` is column `x`, row `y`. -/
abbrev Grid := List (List State)

/-- `Grid::get_col`: `self.grid.get(x)`. -/
def Grid.get_col (g : Grid) (x : Nat) : Option (List State) := g.get? x

/-- `Grid::get_cell`: `self.get_col(x).map(|col| col.get(y)).flatten()`. -/
def Grid.get_cell (g : Grid) (x y : Nat) : Option State :=
  (g.get_col x).bind fun col => col.get? y

/-- The `IndexMut` write `grid[x][y] = s`; `none` models the Rust panic
when the index is out of range. -/
def Grid.set_cell (g : Grid) (x y : Nat) (s : State) : Option Grid :=
  (g.get? x).bind fun col =>
    if y < col.length then some (g.set x (col.set y s)) else none

/-- `Grid::indexed_iter`: columns enumerated (index `i`), each cell of a
column enumerated (index `j`), flattened. -/
def Grid.indexed_iter (g : Grid) : List (Nat × Nat × State) :=
  g.enum.flatMap fun p => p.2.enum.map fun q => (p.1, q.1, q.2)

/-- `impl Default for Grid`: an `n × n` grid of default cells. -/
def Grid.mkDefault (n : Nat) : Grid :=
  List.replicate n (List.replicate n State.default)

/-- The grid really is an `n × n` array, as the Rust type
`[[State; N]; N]` guarantees. -/
def Grid.isSquare (n : Nat) (g : Grid) : Prop :=
  g.length = n ∧ ∀ col ∈ g, col.length = n

instance (n : Nat) (g : Grid) : Decidable (g.isSquare n) :=
  decidable_of_iff (g.length = n ∧ ∀ col ∈ g, col.length = n) Iff.rfl

/-- `enum Comparison<T>` from the source. -/
inductive Comparison (T : Type) where
  | Equal (value : T)
  | NotEqual (value : T)
  | GreaterThan (value : T)
  | LessThan (value : T)
  | GreaterThanOrEqual (value : T)
  | LessThanOrEqual (value : T)
  | BetweenExclusive (lower upper : T)
  | BetweenInclusive (lower upper : T)
deriving DecidableEq, Repr

/-- `Comparison::compare` from the source (instantiated at `usize`,
the only type the engine uses it at). -/
def Comparison.compare (c : Comparison Nat) (other : Nat) : Bool :=
  match c with
  | Comparison.Equal value => other == value
  | Comparison.NotEqual value => other != value
  | Comparison.GreaterThan value => decide (value < other)
  | Comparison.LessThan value => decide (other < value)
  | Comparison.GreaterThanOrEqual value => decide (value ≤ other)
  | Comparison.LessThanOrEqual value => decide (other ≤ value)
  | Comparison.BetweenExclusive lower upper => decide (lower < other) && decide (other < upper)
  | Comparison.BetweenInclusive lower upper => decide (lower ≤ other) && decide (other ≤ upper)

/-- `enum Rule` from the source. -/
inductive Rule where
  | Linear (in_state : List (List (Option State))) (out_state : List (List (Option State)))
  | Radial (current_state : State) (surroundings : List (State × Comparison Nat))
      (final_state : State)
deriving DecidableEq

/-- Rust's `as usize` cast of an `i64`: reduction modulo `2 ^ 64`
(negative values wrap around). -/
def castUsize (v : Int) : Nat := (v % (2 ^ 64 : Int)).toNat

/-- The Moore-neighbourhood offsets exactly as the source builds them:
`(-1..=1).flat_map(|ri| (-1..=1).map(|rj| (ri, rj)).filter(|r| r != (0,0)))`. -/
def mooreOffsets : List (Int × Int) :=
  ([-1, 0, 1] : List Int).flatMap fun ri =>
    ((([-1, 0, 1] : List Int).map fun rj => (ri, rj)).filter fun r =>
      r != ((0 : Int), (0 : Int)))

/-- The `cells` vector of `Model::radial`: checked-safe lookups at the
eight Moore offsets, with the signed offsets cast through `usize`,
keeping only the present neighbours. -/
def radialCells (active : Grid) (x y : Nat) : List State :=
  (mooreOffsets.map fun r =>
    active.get_cell (castUsize ((x : Int) + r.1)) (castUsize ((y : Int) + r.2))).filterMap id

/-- `Model::radial` from the source.  `none` models the panic of the
direct write `inactive[(x, y)] = final_state` at an out-of-range anchor;
otherwise the result is the updated buffer and the returned `bool`. -/
def Model.radial (active : Grid) (cell : State) (cell_cords : Nat × Nat)
    (inactive : Grid) (current_state : State)
    (surroundings : List (State × Comparison Nat)) (final_state : State) :
    Option (Grid × Bool) :=
  if current_state = cell then
    let cells := radialCells active cell_cords.1 cell_cords.2
    if surroundings.all fun sc =>
        sc.2.compare (cells.filter fun val => val == sc.1).length then
      match inactive.set_cell cell_cords.1 cell_cords.2 final_state with
      | some g => some (g, true)
      | none => none
    else
      some (inactive, false)
  else
    some (inactive, false)

/-- The non-wildcard entries of a pattern in iteration order, as the
`in_state` side of `Model::linear` produces them: enumerate columns,
enumerate cells, then keep the `Some` entries. -/
def inEntries (p : List (List (Option State))) : List (Nat × Nat × State) :=
  (p.enum.flatMap fun pc => pc.2.enum.map fun qc => (pc.1, qc.1, qc.2)).filterMap
    fun e => e.2.2.map fun c => (e.1, e.2.1, c)

/-- The non-wildcard entries of a pattern as the `out_state` side of
`Model::linear` produces them (the `filter_map` fused into the
`flat_map`). -/
def outEntries (p : List (List (Option State))) : List (Nat × Nat × State) :=
  p.enum.flatMap fun pc =>
    pc.2.enum.filterMap fun qc => qc.2.map fun c => (pc.1, qc.1, c)

/-- `Model::linear` from the source.  `none` models the panic of a
direct out-of-range write `inactive[(x + ri, y + rj)] = state`. -/
def Model.linear (active : Grid) (cell_cords : Nat × Nat) (inactive : Grid)
    (in_state : List (List (Option State))) (out_state : List (List (Option State))) :
    Option (Grid × Bool) :=
  if (inEntries in_state).all fun e =>
      (active.get_cell (cell_cords.1 + e.1) (cell_cords.2 + e.2.1) == some e.2.2)
        && (inactive.get_cell (cell_cords.1 + e.1) (cell_cords.2 + e.2.1) == some e.2.2)
  then
    match (outEntries out_state).foldlM
        (fun g e => Grid.set_cell g (cell_cords.1 + e.1) (cell_cords.2 + e.2.1) e.2.2)
        inactive with
    | some g => some (g, true)
    | none => none
  else
    some (inactive, false)

/-- The rule dispatch inside `update`'s inner loop. -/
def applyRule (active : Grid) (rule : Rule) (inactive : Grid) (i j : Nat) (cell : State) :
    Option (Grid × Bool) :=
  match rule with
  | Rule.Linear in_state out_state => Model.linear active (i, j) inactive in_state out_state
  | Rule.Radial current_state surroundings final_state =>
      Model.radial active cell (i, j) inactive current_state surroundings final_state

/-- One rule applied at every cell of `indexed_iter`, threading the
next-generation buffer (the returned `bool` is discarded, as in the
source). -/
def tickPass (active : Grid) (rule : Rule) (inactive : Grid) : Option Grid :=
  active.indexed_iter.foldlM
    (fun buf e => (applyRule active rule buf e.1 e.2.1 e.2.2).map Prod.fst) inactive

/-- The non-gated body of `update`: clone the grid, apply each rule in
list order at every cell, and return the finished buffer which then
replaces the active grid. -/
def tick (active : Grid) (rules : List Rule) : Option Grid :=
  rules.foldlM (fun inactive rule => tickPass active rule inactive) active

/-- `struct Model` from the source (the `Instant` timestamp becomes a
natural number of milliseconds). -/
structure Model where
  active : Grid
  rules : List Rule
  last : Nat
  paused : Bool
  fill_state : State
deriving DecidableEq

/-- `Model::model`: construction from an optional seed grid, a rule
list and the paused flag; `now` stands for `Instant::now()`. -/
def Model.model (n : Nat) (starting_state : Option Grid) (rules : List Rule)
    (paused : Bool) (now : Nat) : Model :=
  { active := starting_state.getD (Grid.mkDefault n)
    rules := rules
    last := now
    paused := paused
    fill_state := State.default }

/-- `update` from the source: gated on the paused flag and on at least
50 ms having elapsed since the last tick; otherwise runs one tick and
swaps the buffer in. -/
def update (now : Nat) (m : Model) : Option Model :=
  if m.paused || now - m.last < 50 then
    some m
  else
    match tick m.active m.rules with
    | some g => some { m with active := g, last := now }
    | none => none

/-- `n` non-gated ticks from a seed grid. -/
def tickN (rules : List Rule) (g : Grid) : Nat → Option Grid
  | 0 => some g
  | k + 1 =>
    match tick g rules with
    | some g2 => tickN rules g2 k
    | none => none

/-- The sequence of grids produced by `k` non-gated ticks (the seed
included). -/
def gridSeq (rules : List Rule) (g : Grid) : Nat → Option (List Grid)
  | 0 => some [g]
  | k + 1 =>
    match tick g rules with
    | some g2 => (gridSeq rules g2 k).map fun l => g :: l
    | none => none

/-- A whole run of gated `update` calls, one per supplied timestamp. -/
def updateRun (ks : List Nat) (m : Model) : Option Model :=
  ks.foldlM (fun m now => update now m) m

/-- The pattern entry of a Linear rule at relative offset `(ri, rj)`:
`none` when the offset is outside the pattern, `some none` for a
wildcard, `some (some s)` for an exact-state requirement. -/
def patternAt (p : List (List (Option State))) (ri rj : Nat) : Option (Option State) :=
  (p.get? ri).bind fun col => col.get? rj

/-- The match condition of `Model::linear`, stated as the spec states
it: every non-wildcard `in_pattern` entry must equal the cell at its
offset in both the current grid and the next-generation buffer. -/
def linearMatches (active inactive : Grid) (x y : Nat)
    (in_state : List (List (Option State))) : Prop :=
  ∀ ri rj s, patternAt in_state ri rj = some (some s) →
    active.get_cell (x + ri) (y + rj) = some s ∧
      inactive.get_cell (x + ri) (y + rj) = some s

/-! ### Basic grid lemmas -/

theorem Grid.get_cell_isSome {n : Nat} {g : Grid} (h : g.isSquare n) (x y : Nat) :
    (g.get_cell x y).isSome = true ↔ x < n ∧ y < n := by
  obtain ⟨hlen, hcols⟩ := h
  unfold Grid.get_cell Grid.get_col
  cases hg : g.get? x with
  | none =>
    rw [List.get?_eq_getElem?] at hg
    have hx : g.length ≤ x := by
      by_contra hlt
      push_neg at hlt
      rw [List.getElem?_eq_getElem hlt] at hg
      exact Option.noConfusion hg
    simp only [Option.none_bind, Option.isSome_none, Bool.false_eq_true, false_iff]
    omega
  | some col =>
    rw [List.get?_eq_getElem?] at hg
    have hx : x < g.length := by
      by_contra hge
      push_neg at hge
      rw [List.getElem?_eq_none hge] at hg
      exact Option.noConfusion hg
    have hcol : col ∈ g := List.getElem?_mem hg
    have hclen : col.length = n := hcols col hcol
    simp only [Option.some_bind]
    rw [List.get?_eq_getElem?]
    constructor
    · intro hs
      have hy : y < col.length := by
        by_contra hge
        push_neg at hge
        rw [List.getElem?_eq_none hge] at hs
        exact Bool.noConfusion hs
      omega
    · intro ⟨_, hy⟩
      rw [List.getElem?_eq_getElem (by omega)]
      rfl

theorem Grid.get_cell_bounds {n : Nat} {g : Grid} {x y : Nat} {s : State}
    (h : g.isSquare n) (hs : g.get_cell x y = some s) : x < n ∧ y < n := by
  have := (Grid.get_cell_isSome h x y).mp (by rw [hs]; rfl)
  exact this

theorem Grid.get_cell_none {n : Nat} {g : Grid} {x y : Nat}
    (h : g.isSquare n) (hxy : n ≤ x ∨ n ≤ y) : g.get_cell x y = none := by
  cases hc : g.get_cell x y with
  | none => rfl
  | some s =>
    have := Grid.get_cell_bounds h hc
    omega

theorem Grid.set_cell_some {n : Nat} {g : Grid} (h : g.isSquare n) {x y : Nat}
    (hx : x < n) (hy : y < n) (s : State) :
    ∃ g2, g.set_cell x y s = some g2 := by
  obtain ⟨hlen, hcols⟩ := h
  unfold Grid.set_cell
  cases hg : g.get? x with
  | none =>
    rw [List.get?_eq_getElem?, List.getElem?_eq_getElem (by omega)] at hg
    exact Option.noConfusion hg
  | some col =>
    rw [List.get?_eq_getElem?] at hg
    have hcol : col ∈ g := List.getElem?_mem hg
    have hclen : col.length = n := hcols col hcol
    refine ⟨g.set x (col.set y s), ?_⟩
    rw [Option.some_bind, if_pos (by omega)]

theorem Grid.set_cell_bounds {n : Nat} {g g2 : Grid} {x y : Nat} {s : State}
    (h : g.isSquare n) (hset : g.set_cell x y s = some g2) : x < n ∧ y < n := by
  obtain ⟨hlen, hcols⟩ := h
  unfold Grid.set_cell at hset
  cases hg : g.get? x with
  | none => rw [hg, Option.none_bind] at hset; exact Option.noConfusion hset
  | some col =>
    rw [hg, Option.some_bind] at hset
    rw [List.get?_eq_getElem?] at hg
    have hx : x < g.length := by
      by_contra hge
      push_neg at hge
      rw [List.getElem?_eq_none hge] at hg
      exact Option.noConfusion hg
    have hclen : col.length = n := hcols col (List.getElem?_mem hg)
    by_cases hy : y < col.length
    · omega
    · rw [if_neg hy] at hset; exact Option.noConfusion hset

theorem Grid.set_cell_isSquare {n : Nat} {g g2 : Grid} {x y : Nat} {s : State}
    (h : g.isSquare n) (hset : g.set_cell x y s = some g2) : g2.isSquare n := by
  obtain ⟨hlen, hcols⟩ := h
  unfold Grid.set_cell at hset
  cases hg : g.get? x with
  | none => rw [hg, Option.none_bind] at hset; exact Option.noConfusion hset
  | some col =>
    rw [hg, Option.some_bind] at hset
    by_cases hy : y < col.length
    · rw [if_pos hy] at hset
      cases hset
      constructor
      · rw [List.length_set]; exact hlen
      · intro col2 hcol2
        rcases List.mem_or_eq_of_mem_set hcol2 with hmem | heq
        · exact hcols col2 hmem
        · subst heq
          rw [List.length_set]
          rw [List.get?_eq_getElem?] at hg
          exact hcols col (List.getElem?_mem hg)
    · rw [if_neg hy] at hset; exact Option.noConfusion hset

theorem Grid.get_set_same {g g2 : Grid} {x y : Nat} {s : State}
    (hset : g.set_cell x y s = some g2) : g2.get_cell x y = some s := by
  unfold Grid.set_cell at hset
  cases hg : g.get? x with
  | none => rw [hg, Option.none_bind] at hset; exact Option.noConfusion hset
  | some col =>
    rw [hg, Option.some_bind] at hset
    by_cases hy : y < col.length
    · rw [if_pos hy] at hset
      cases hset
      rw [List.get?_eq_getElem?] at hg
      have hx : x < g.length := by
        by_contra hge
        push_neg at hge
        rw [List.getElem?_eq_none hge] at hg
        exact Option.noConfusion hg
      unfold Grid.get_cell Grid.get_col
      rw [List.get?_eq_getElem?, List.getElem?_set, if_pos rfl, if_pos hx]
      simp only [Option.some_bind]
      rw [List.get?_eq_getElem?, List.getElem?_set, if_pos rfl, if_pos hy]
    · rw [if_neg hy] at hset; exact Option.noConfusion hset

theorem Grid.get_set_other {g g2 : Grid} {x y a b : Nat} {s : State}
    (hset : g.set_cell x y s = some g2) (hne : (a, b) ≠ (x, y)) :
    g2.get_cell a b = g.get_cell a b := by
  unfold Grid.set_cell at hset
  cases hg : g.get? x with
  | none => rw [hg, Option.none_bind] at hset; exact Option.noConfusion hset
  | some col =>
    rw [hg, Option.some_bind] at hset
    by_cases hy : y < col.length
    · rw [if_pos hy] at hset
      cases hset
      unfold Grid.get_cell Grid.get_col
      by_cases hax : a = x
      · subst hax
        have hby : b ≠ y := by
          intro hb; exact hne (by rw [hb])
        rw [List.get?_eq_getElem?, List.getElem?_set, if_pos rfl]
        rw [List.get?_eq_getElem?] at hg
        have hx : a < g.length := by
          by_contra hge
          push_neg at hge
          rw [List.getElem?_eq_none hge] at hg
          exact Option.noConfusion hg
        rw [if_pos hx, List.get?_eq_getElem?, hg]
        simp only [Option.some_bind]
        rw [List.get?_eq_getElem?, List.get?_eq_getElem?, List.getElem?_set,
          if_neg (by omega)]
      · rw [List.get?_eq_getElem?, List.get?_eq_getElem?, List.getElem?_set,
          if_neg (by omega)]
    · rw [if_neg hy] at hset; exact Option.noConfusion hset

/-! ### Pattern-entry lemmas -/

theorem outEntries_eq_inEntries (p : List (List (Option State))) :
    outEntries p = inEntries p := by
  unfold outEntries inEntries
  rw [List.filterMap_flatMap]
  simp only [List.filterMap_map]
  rfl

theorem mem_outEntries {p : List (List (Option State))} {e : Nat × Nat × State} :
    e ∈ outEntries p ↔ patternAt p e.1 e.2.1 = some (some e.2.2) := by
  unfold outEntries patternAt
  rw [List.mem_flatMap]
  constructor
  · rintro ⟨pc, hpc, hin⟩
    rw [List.mem_filterMap] at hin
    obtain ⟨qc, hqc, hmap⟩ := hin
    rw [Option.map_eq_some'] at hmap
    obtain ⟨c, hc, hec⟩ := hmap
    subst hec
    rw [List.mem_enum_iff_getElem?] at hpc hqc
    rw [List.get?_eq_getElem?, hpc, Option.some_bind, List.get?_eq_getElem?, hqc, hc]
  · intro h
    cases hcol : p.get? e.1 with
    | none => rw [hcol, Option.none_bind] at h; exact Option.noConfusion h
    | some col =>
      rw [hcol, Option.some_bind] at h
      refine ⟨(e.1, col), ?_, ?_⟩
      · rw [List.mem_enum_iff_getElem?]
        rw [List.get?_eq_getElem?] at hcol
        exact hcol
      · rw [List.mem_filterMap]
        refine ⟨(e.2.1, some e.2.2), ?_, rfl⟩
        rw [List.mem_enum_iff_getElem?]
        rw [List.get?_eq_getElem?] at h
        exact h

theorem mem_inEntries {p : List (List (Option State))} {e : Nat × Nat × State} :
    e ∈ inEntries p ↔ patternAt p e.1 e.2.1 = some (some e.2.2) := by
  rw [← outEntries_eq_inEntries]
  exact mem_outEntries

/-- The `all` check of `Model::linear` holds exactly when the rule
matches in the sense of the spec. -/
theorem linear_all_iff (active inactive : Grid) (x y : Nat)
    (in_state : List (List (Option State))) :
    ((inEntries in_state).all fun e =>
        (active.get_cell (x + e.1) (y + e.2.1) == some e.2.2)
          && (inactive.get_cell (x + e.1) (y + e.2.1) == some e.2.2)) = true
      ↔ linearMatches active inactive x y in_state := by
  rw [List.all_eq_true]
  unfold linearMatches
  constructor
  · intro h ri rj s hat
    have hm : ((ri, rj, s) : Nat × Nat × State) ∈ inEntries in_state :=
      mem_inEntries.mpr hat
    have := h _ hm
    rw [Bool.and_eq_true, beq_iff_eq, beq_iff_eq] at this
    exact this
  · intro h e he
    rw [mem_inEntries] at he
    have := h e.1 e.2.1 e.2.2 he
    rw [Bool.and_eq_true, beq_iff_eq, beq_iff_eq]
    exact this

theorem pairwise_filterMap {α β : Type} {R : α → α → Prop} {S : β → β → Prop}
    {f : α → Option β}
    (h : ∀ a b x z, R a b → f a = some x → f b = some z → S x z) :
    ∀ {l : List α}, l.Pairwise R → (l.filterMap f).Pairwise S := by
  intro l hl
  induction hl with
  | nil => simp
  | cons hr _ ih =>
    rename_i a t _
    rw [List.filterMap_cons]
    cases hfa : f a with
    | none => exact ih
    | some b =>
      refine List.Pairwise.cons ?_ ih
      intro z hz
      rw [List.mem_filterMap] at hz
      obtain ⟨a2, ha2, hfa2⟩ := hz
      exact h a a2 b z (hr a2 ha2) hfa hfa2

/-- Entries of one pattern column, with the column index attached. -/
theorem colEntries_pairwise (k : Nat) (col : List (Option State)) :
    (col.enum.filterMap fun qc => qc.2.map fun c => (k, qc.1, c)).Pairwise
      fun e1 e2 => (e1.1 : Nat) = e2.1 ∧ e1.2.1 < e2.2.1 := by
  have henum : col.enum.Pairwise fun a b => a.1 < b.1 := by
    have hfst : (col.enum.map Prod.fst).Pairwise (· < ·) := by
      rw [List.enum_map_fst]
      exact List.pairwise_lt_range col.length
    rw [List.pairwise_map] at hfst
    exact hfst
  refine pairwise_filterMap ?_ henum
  intro a b xx zz hr hfa hfb
  rw [Option.map_eq_some'] at hfa hfb
  obtain ⟨c1, _, h1⟩ := hfa
  obtain ⟨c2, _, h2⟩ := hfb
  subst h1
  subst h2
  exact ⟨rfl, hr⟩

theorem colEntries_fst {k : Nat} {col : List (Option State)} {e : Nat × Nat × State}
    (he : e ∈ col.enum.filterMap fun qc => qc.2.map fun c => (k, qc.1, c)) :
    e.1 = k := by
  rw [List.mem_filterMap] at he
  obtain ⟨qc, _, hmap⟩ := he
  rw [Option.map_eq_some'] at hmap
  obtain ⟨c, _, hec⟩ := hmap
  subst hec
  rfl

theorem enumFromEntries_pairwise (p : List (List (Option State))) :
    ∀ k : Nat,
      ((p.enumFrom k).flatMap fun pc =>
          pc.2.enum.filterMap fun qc => qc.2.map fun c => (pc.1, qc.1, c)).Pairwise
        fun e1 e2 => e1.1 < e2.1 ∨ (e1.1 = e2.1 ∧ e1.2.1 < e2.2.1) := by
  induction p with
  | nil => intro k; simp
  | cons col p ih =>
    intro k
    rw [List.enumFrom_cons, List.flatMap_cons, List.pairwise_append]
    refine ⟨(colEntries_pairwise k col).imp fun h => Or.inr h, ih (k + 1), ?_⟩
    intro a ha b hb
    have hak : a.1 = k := colEntries_fst ha
    have hbk : k + 1 ≤ b.1 := by
      rw [List.mem_flatMap] at hb
      obtain ⟨⟨i2, col2⟩, hpc, hbin⟩ := hb
      have := colEntries_fst hbin
      have hge : k + 1 ≤ i2 := (List.mem_enumFrom hpc).1
      omega
    left
    omega

theorem outEntries_proj_nodup (p : List (List (Option State))) :
    ((outEntries p).map fun e => ((e.1 : Nat), (e.2.1 : Nat))).Nodup := by
  have hp := enumFromEntries_pairwise p 0
  have : (outEntries p).Pairwise
      fun e1 e2 => e1.1 < e2.1 ∨ (e1.1 = e2.1 ∧ e1.2.1 < e2.2.1) := hp
  rw [List.Nodup, List.pairwise_map]
  refine this.imp ?_
  intro a b hab
  intro heq
  rw [Prod.mk.injEq] at heq
  obtain ⟨h1, h2⟩ := heq
  rcases hab with h | ⟨_, h⟩ <;> omega

/-! ### The write fold of `Model::linear` -/

theorem Grid.set_cell_none {n : Nat} {g : Grid} {x y : Nat} (h : g.isSquare n)
    (hxy : n ≤ x ∨ n ≤ y) (s : State) : g.set_cell x y s = none := by
  cases hc : g.set_cell x y s with
  | none => rfl
  | some g2 =>
    have := Grid.set_cell_bounds h hc
    omega

theorem foldl_set_some {n x y : Nat} :
    ∀ (entries : List (Nat × Nat × State)) (g : Grid), g.isSquare n →
    (∀ e ∈ entries, x + e.1 < n ∧ y + e.2.1 < n) →
    ((entries.map fun e => ((e.1 : Nat), (e.2.1 : Nat))).Nodup) →
    ∃ g2, entries.foldlM (fun h e => Grid.set_cell h (x + e.1) (y + e.2.1) e.2.2) g = some g2 ∧
      g2.isSquare n ∧
      (∀ e ∈ entries, g2.get_cell (x + e.1) (y + e.2.1) = some e.2.2) ∧
      (∀ a b : Nat, (∀ e ∈ entries, (a, b) ≠ (x + e.1, y + e.2.1)) →
        g2.get_cell a b = g.get_cell a b) := by
  intro entries
  induction entries with
  | nil =>
    intro g hsq _ _
    exact ⟨g, rfl, hsq, by simp, fun a b _ => rfl⟩
  | cons e0 t ih =>
    intro g hsq hbounds hnodup
    obtain ⟨hx0, hy0⟩ := hbounds e0 (List.mem_cons_self e0 t)
    obtain ⟨g1, hg1⟩ := Grid.set_cell_some hsq hx0 hy0 e0.2.2
    have hsq1 : g1.isSquare n := Grid.set_cell_isSquare hsq hg1
    rw [List.map_cons, List.nodup_cons] at hnodup
    obtain ⟨hnotin, hnodup2⟩ := hnodup
    obtain ⟨g2, hfold, hsq2, hget, hframe⟩ :=
      ih g1 hsq1 (fun e he => hbounds e (List.mem_cons_of_mem e0 he)) hnodup2
    refine ⟨g2, ?_, hsq2, ?_, ?_⟩
    · rw [List.foldlM_cons, hg1]
      exact hfold
    · intro e he
      rcases List.mem_cons.mp he with heq | hmem
      · subst heq
        have hne : ∀ e2 ∈ t, ((x + e.1 : Nat), (y + e.2.1 : Nat)) ≠ (x + e2.1, y + e2.2.1) := by
          intro e2 he2 hcontra
          rw [Prod.mk.injEq] at hcontra
          exact hnotin (by
            rw [List.mem_map]
            exact ⟨e2, he2, by rw [Prod.mk.injEq]; omega⟩)
        rw [hframe _ _ hne]
        exact Grid.get_set_same hg1
      · exact hget e hmem
    · intro a b hne
      rw [hframe a b fun e he => hne e (List.mem_cons_of_mem e0 he)]
      exact Grid.get_set_other hg1 (hne e0 (List.mem_cons_self e0 t))

theorem foldl_set_none {n x y : Nat} :
    ∀ (entries : List (Nat × Nat × State)) (g : Grid), g.isSquare n →
    (∃ e ∈ entries, n ≤ x + e.1 ∨ n ≤ y + e.2.1) →
    entries.foldlM (fun h e => Grid.set_cell h (x + e.1) (y + e.2.1) e.2.2) g = none := by
  intro entries
  induction entries with
  | nil =>
    intro g _ hwit
    obtain ⟨e, he, _⟩ := hwit
    exact absurd he (List.not_mem_nil e)
  | cons e0 t ih =>
    intro g hsq hwit
    by_cases h0 : x + e0.1 < n ∧ y + e0.2.1 < n
    · obtain ⟨g1, hg1⟩ := Grid.set_cell_some hsq h0.1 h0.2 e0.2.2
      have hwit2 : ∃ e ∈ t, n ≤ x + e.1 ∨ n ≤ y + e.2.1 := by
        obtain ⟨e, he, hoob⟩ := hwit
        rcases List.mem_cons.mp he with heq | hmem
        · subst heq; omega
        · exact ⟨e, hmem, hoob⟩
      rw [List.foldlM_cons, hg1]
      exact ih g1 (Grid.set_cell_isSquare hsq hg1) hwit2
    · rw [List.foldlM_cons, Grid.set_cell_none hsq (by omega) e0.2.2]
      rfl

theorem foldl_set_isSquare {n x y : Nat} :
    ∀ (entries : List (Nat × Nat × State)) (g g2 : Grid), g.isSquare n →
    entries.foldlM (fun h e => Grid.set_cell h (x + e.1) (y + e.2.1) e.2.2) g = some g2 →
    g2.isSquare n := by
  intro entries
  induction entries with
  | nil =>
    intro g g2 hsq hfold
    cases hfold
    exact hsq
  | cons e0 t ih =>
    intro g g2 hsq hfold
    rw [List.foldlM_cons] at hfold
    cases hg1 : g.set_cell (x + e0.1) (y + e0.2.1) e0.2.2 with
    | none => rw [hg1] at hfold; exact Option.noConfusion hfold
    | some g1 =>
      rw [hg1] at hfold
      exact ih g1 g2 (Grid.set_cell_isSquare hsq hg1) hfold

/-! ### Characterisation of `Model::linear` -/

theorem linear_fires {n x y : Nat} {active inactive : Grid}
    {in_state out_state : List (List (Option State))}
    (hsq : inactive.isSquare n)
    (hw : ∀ ri rj s, patternAt out_state ri rj = some (some s) → x + ri < n ∧ y + rj < n)
    (hm : linearMatches active inactive x y in_state) :
    ∃ g2, Model.linear active (x, y) inactive in_state out_state = some (g2, true) ∧
      g2.isSquare n ∧
      (∀ ri rj s, patternAt out_state ri rj = some (some s) →
        g2.get_cell (x + ri) (y + rj) = some s) ∧
      (∀ a b : Nat,
        (∀ ri rj s, patternAt out_state ri rj = some (some s) → (a, b) ≠ (x + ri, y + rj)) →
        g2.get_cell a b = inactive.get_cell a b) := by
  obtain ⟨g2, hfold, hsq2, hget, hframe⟩ :=
    foldl_set_some (n := n) (x := x) (y := y) (outEntries out_state) inactive hsq
      (fun e he => hw e.1 e.2.1 e.2.2 (mem_outEntries.mp he))
      (outEntries_proj_nodup out_state)
  refine ⟨g2, ?_, hsq2, ?_, ?_⟩
  · unfold Model.linear
    rw [if_pos ((linear_all_iff active inactive x y in_state).mpr hm), hfold]
  · intro ri rj s hat
    exact hget (ri, rj, s) (mem_outEntries.mpr hat)
  · intro a b hne
    exact hframe a b fun e he => hne e.1 e.2.1 e.2.2 (mem_outEntries.mp he)

theorem linear_no_fire {active inactive : Grid} {x y : Nat}
    {in_state out_state : List (List (Option State))}
    (hm : ¬ linearMatches active inactive x y in_state) :
    Model.linear active (x, y) inactive in_state out_state = some (inactive, false) := by
  unfold Model.linear
  rw [if_neg fun h => hm ((linear_all_iff active inactive x y in_state).mp h)]

theorem linear_fired_match {active inactive : Grid} {x y : Nat}
    {in_state out_state : List (List (Option State))} {g2 : Grid}
    (h : Model.linear active (x, y) inactive in_state out_state = some (g2, true)) :
    linearMatches active inactive x y in_state := by
  by_contra hm
  rw [linear_no_fire hm] at h
  simp at h

theorem linear_panics {n x y ri rj : Nat} {active inactive : Grid}
    {in_state out_state : List (List (Option State))} {s : State}
    (hsq : inactive.isSquare n)
    (hm : linearMatches active inactive x y in_state)
    (hout : patternAt out_state ri rj = some (some s))
    (hoob : n ≤ x + ri ∨ n ≤ y + rj) :
    Model.linear active (x, y) inactive in_state out_state = none := by
  unfold Model.linear
  rw [if_pos ((linear_all_iff active inactive x y in_state).mpr hm),
    foldl_set_none (n := n) (outEntries out_state) inactive hsq
      ⟨(ri, rj, s), mem_outEntries.mpr hout, hoob⟩]

theorem linear_isSquare {n : Nat} {active inactive : Grid} {x y : Nat}
    {in_state out_state : List (List (Option State))} {g2 : Grid} {b : Bool}
    (hsq : inactive.isSquare n)
    (h : Model.linear active (x, y) inactive in_state out_state = some (g2, b)) :
    g2.isSquare n := by
  unfold Model.linear at h
  by_cases hc : ((inEntries in_state).all fun e =>
      (active.get_cell (x + e.1) (y + e.2.1) == some e.2.2)
        && (inactive.get_cell (x + e.1) (y + e.2.1) == some e.2.2)) = true
  · rw [if_pos hc] at h
    cases hfold : (outEntries out_state).foldlM
        (fun g e => Grid.set_cell g (x + e.1) (y + e.2.1) e.2.2) inactive with
    | none => rw [hfold] at h; exact Option.noConfusion h
    | some g3 =>
      rw [hfold] at h
      cases h
      exact foldl_set_isSquare (outEntries out_state) inactive _ hsq hfold
  · rw [if_neg hc] at h
    cases h
    exact hsq

/-! ### C1: Linear rule application -/

/-- C1: at an anchor `(x, y)` a Linear rule fires iff every non-wildcard
`in_pattern` entry at offset `(ri, rj)` equals the checked-safe lookup at
`(x + ri, y + rj)` in both the current grid and the next-generation buffer
(absent lookups fail the match); on a match every non-wildcard
`out_pattern` entry is written into the buffer at its offset while
wildcard entries match anything and write nothing (all other buffer cells
are unchanged); the returned flag is `true` iff the rule fired. -/
theorem c1_linear_rule_application (active inactive : Grid) (n x y : Nat)
    (in_state out_state : List (List (Option State)))
    (hsq : inactive.isSquare n)
    (hw : ∀ ri rj s, patternAt out_state ri rj = some (some s) → x + ri < n ∧ y + rj < n) :
    ((∃ g2, Model.linear active (x, y) inactive in_state out_state = some (g2, true)) ↔
      linearMatches active inactive x y in_state) ∧
    (∀ g2, Model.linear active (x, y) inactive in_state out_state = some (g2, true) →
      (∀ ri rj s, patternAt out_state ri rj = some (some s) →
        g2.get_cell (x + ri) (y + rj) = some s) ∧
      (∀ a b : Nat,
        (∀ ri rj s, patternAt out_state ri rj = some (some s) → (a, b) ≠ (x + ri, y + rj)) →
        g2.get_cell a b = inactive.get_cell a b)) ∧
    (¬ linearMatches active inactive x y in_state →
      Model.linear active (x, y) inactive in_state out_state = some (inactive, false)) := by
  refine ⟨⟨?_, ?_⟩, ?_, ?_⟩
  · rintro ⟨g2, hg2⟩
    exact linear_fired_match hg2
  · intro hm
    obtain ⟨g2, hl, _, _, _⟩ := linear_fires hsq hw hm
    exact ⟨g2, hl⟩
  · intro g2 hg2
    have hm := linear_fired_match hg2
    obtain ⟨g3, hl, _, hget, hframe⟩ := linear_fires hsq hw hm
    rw [hg2] at hl
    have hg : g3 = g2 := (congrArg Prod.fst (Option.some.inj hl)).symm
    subst hg
    exact ⟨hget, hframe⟩
  · intro hm
    exact linear_no_fire hm

/-- 2×2 grid used to instantiate the Linear-rule theorems. -/
def wGrid : Grid := [[State.Full, State.Empty], [State.Empty, State.Empty]]

/-- One-column falling-sand input pattern: Full above Empty. -/
def wIn : List (List (Option State)) := [[some State.Full, some State.Empty]]

/-- One-column falling-sand output pattern: Empty above Full. -/
def wOut : List (List (Option State)) := [[some State.Empty, some State.Full]]

theorem wOut_bounds :
    ∀ ri rj s, patternAt wOut ri rj = some (some s) → 0 + ri < 2 ∧ 0 + rj < 2 := by
  intro ri rj s h
  rcases ri with _ | ri
  · rcases rj with _ | rj
    · omega
    · rcases rj with _ | rj
      · omega
      · simp [patternAt, wOut, List.get?] at h
  · simp [patternAt, wOut, List.get?] at h

theorem c1_linear_rule_application_witness :
    ((∃ g2, Model.linear wGrid (0, 0) wGrid wIn wOut = some (g2, true)) ↔
      linearMatches wGrid wGrid 0 0 wIn) ∧
    (∀ g2, Model.linear wGrid (0, 0) wGrid wIn wOut = some (g2, true) →
      (∀ ri rj s, patternAt wOut ri rj = some (some s) →
        g2.get_cell (0 + ri) (0 + rj) = some s) ∧
      (∀ a b : Nat,
        (∀ ri rj s, patternAt wOut ri rj = some (some s) → (a, b) ≠ (0 + ri, 0 + rj)) →
        g2.get_cell a b = wGrid.get_cell a b)) ∧
    (¬ linearMatches wGrid wGrid 0 0 wIn →
      Model.linear wGrid (0, 0) wGrid wIn wOut = some (wGrid, false)) :=
  c1_linear_rule_application wGrid wGrid 2 0 0 wIn wOut (by decide) wOut_bounds

/-! ### C10: bounds of the Linear write path -/

/-- C10: the `out_pattern` writes of a Linear rule use direct, unchecked
indexing, guarded only by the `in_pattern` match.  If every non-wildcard
output offset is also a non-wildcard input offset, a match forces every
write target inside `[0, n) × [0, n)` and the writes all succeed; but a
non-wildcard output offset sitting under an input wildcard can, at a
matching anchor whose offset falls outside the grid, reach an
out-of-range direct write — the Rust panic, modelled as `none`. -/
theorem c10_linear_write_bounds :
    (∀ (active inactive : Grid) (n x y : Nat)
        (in_state out_state : List (List (Option State))),
      inactive.isSquare n →
      (∀ ri rj s, patternAt out_state ri rj = some (some s) →
        ∃ t, patternAt in_state ri rj = some (some t)) →
      linearMatches active inactive x y in_state →
      (∀ ri rj s, patternAt out_state ri rj = some (some s) →
        x + ri < n ∧ y + rj < n) ∧
      ∃ g2, Model.linear active (x, y) inactive in_state out_state = some (g2, true)) ∧
    (∀ (active inactive : Grid) (n x y ri rj : Nat) (s : State)
        (in_state out_state : List (List (Option State))),
      inactive.isSquare n →
      linearMatches active inactive x y in_state →
      patternAt in_state ri rj = some none →
      patternAt out_state ri rj = some (some s) →
      n ≤ x + ri ∨ n ≤ y + rj →
      Model.linear active (x, y) inactive in_state out_state = none) := by
  constructor
  · intro active inactive n x y in_state out_state hsq hsub hm
    have hw : ∀ ri rj s, patternAt out_state ri rj = some (some s) →
        x + ri < n ∧ y + rj < n := by
      intro ri rj s hout
      obtain ⟨t, hin⟩ := hsub ri rj s hout
      exact Grid.get_cell_bounds hsq (hm ri rj t hin).2
    refine ⟨hw, ?_⟩
    obtain ⟨g2, hl, _, _, _⟩ := linear_fires hsq hw hm
    exact ⟨g2, hl⟩
  · intro active inactive n x y ri rj s in_state out_state hsq hm _ hout hoob
    exact linear_panics hsq hm hout hoob

theorem wNoneMatches : linearMatches [[State.Full]] [[State.Full]] 0 0 [[none, none]] := by
  intro ri rj s h
  exfalso
  rcases ri with _ | ri
  · rcases rj with _ | rj
    · simp [patternAt, List.get?] at h
    · rcases rj with _ | rj
      · simp [patternAt, List.get?] at h
      · simp [patternAt, List.get?] at h
  · simp [patternAt, List.get?] at h

theorem wSubset :
    ∀ ri rj s, patternAt wOut ri rj = some (some s) →
      ∃ t, patternAt wIn ri rj = some (some t) := by
  intro ri rj s h
  rcases ri with _ | ri
  · rcases rj with _ | rj
    · exact ⟨State.Full, rfl⟩
    · rcases rj with _ | rj
      · exact ⟨State.Empty, rfl⟩
      · simp [patternAt, wOut, List.get?] at h
  · simp [patternAt, wOut, List.get?] at h

theorem wMatches : linearMatches wGrid wGrid 0 0 wIn := by
  intro ri rj s h
  rcases ri with _ | ri
  · rcases rj with _ | rj
    · have hs : s = State.Full := by
        simp [patternAt, wIn, List.get?] at h
        exact h.symm
      subst hs
      exact ⟨rfl, rfl⟩
    · rcases rj with _ | rj
      · have hs : s = State.Empty := by
          simp [patternAt, wIn, List.get?] at h
          exact h.symm
        subst hs
        exact ⟨rfl, rfl⟩
      · simp [patternAt, wIn, List.get?] at h
  · simp [patternAt, wIn, List.get?] at h

theorem c10_linear_write_bounds_witness :
    ((∀ ri rj s, patternAt wOut ri rj = some (some s) →
        0 + ri < 2 ∧ 0 + rj < 2) ∧
      ∃ g2, Model.linear wGrid (0, 0) wGrid wIn wOut = some (g2, true)) ∧
    Model.linear [[State.Full]] (0, 0) [[State.Full]] [[none, none]]
      [[none, some State.Full]] = none := by
  constructor
  · exact c10_linear_write_bounds.1 wGrid wGrid 2 0 0 wIn wOut (by decide) wSubset wMatches
  · exact c10_linear_write_bounds.2 [[State.Full]] [[State.Full]] 1 0 0 0 1 State.Full
      [[none, none]] [[none, some State.Full]] (by decide) wNoneMatches rfl rfl (by omega)

/-! ### C7: construction-time validation -/

/-- A Linear rule whose 6×6 pattern can never fit a 5×5 grid. -/
def badFit : Rule :=
  Rule.Linear (List.replicate 6 (List.replicate 6 (some State.Full)))
    (List.replicate 6 (List.replicate 6 (some State.Full)))

/-- A Radial rule whose range comparison has `lo > hi`. -/
def badCmp : Rule :=
  Rule.Radial State.Empty [(State.Full, Comparison.BetweenInclusive 5 2)] State.Full

/-- C7 counterexample: `Model::model` performs no validation at all —
the construction of an engine over a 5×5 grid with a never-fitting
pattern rule and a `lo > hi` comparison succeeds and stores both rules
verbatim, instead of surfacing a construction failure. -/
theorem c7_counterexample :
    (Model.model 5 (some (Grid.mkDefault 5)) [badFit, badCmp] false 0).rules
      = [badFit, badCmp] := rfl

/-- C7 (amended): construction performs no validation: any rule list is
accepted and stored unchanged; a `Between`* comparison with `lo > hi`
never accepts any count, and a Linear rule with a non-wildcard entry in
a column beyond the grid size never fires — such rules are silently
dead, not rejected. -/
theorem c7_no_construction_validation :
    (∀ (n : Nat) (ss : Option Grid) (rules : List Rule) (p : Bool) (now : Nat),
      (Model.model n ss rules p now).rules = rules ∧
      (Model.model n ss rules p now).active = ss.getD (Grid.mkDefault n) ∧
      (Model.model n ss rules p now).paused = p) ∧
    (∀ lo hi cnt : Nat, hi < lo →
      Comparison.compare (Comparison.BetweenInclusive lo hi) cnt = false ∧
      Comparison.compare (Comparison.BetweenExclusive lo hi) cnt = false) ∧
    (∀ (n x y ri rj : Nat) (s : State) (active inactive : Grid)
        (in_state out_state : List (List (Option State))),
      active.isSquare n → n ≤ ri →
      patternAt in_state ri rj = some (some s) →
      Model.linear active (x, y) inactive in_state out_state = some (inactive, false)) := by
  refine ⟨fun n ss rules p now => ⟨rfl, rfl, rfl⟩, ?_, ?_⟩
  · intro lo hi cnt hlt
    constructor <;>
      simp [Comparison.compare, decide_eq_false_iff_not] <;> omega
  · intro n x y ri rj s active inactive in_state out_state hsq hge hat
    refine linear_no_fire ?_
    intro hm
    have hnone : active.get_cell (x + ri) (y + rj) = none :=
      Grid.get_cell_none hsq (Or.inl (by omega))
    have := (hm ri rj s hat).1
    rw [hnone] at this
    exact Option.noConfusion this

theorem c7_no_construction_validation_witness :
    ((Model.model 5 (some (Grid.mkDefault 5)) [badFit, badCmp] false 0).rules
        = [badFit, badCmp] ∧
      (Model.model 5 (some (Grid.mkDefault 5)) [badFit, badCmp] false 0).active
        = (some (Grid.mkDefault 5)).getD (Grid.mkDefault 5) ∧
      (Model.model 5 (some (Grid.mkDefault 5)) [badFit, badCmp] false 0).paused = false) ∧
    Comparison.compare (Comparison.BetweenInclusive 5 2) 3 = false ∧
    Model.linear (Grid.mkDefault 5) (0, 0) (Grid.mkDefault 5)
      (List.replicate 6 (List.replicate 6 (some State.Full)))
      (List.replicate 6 (List.replicate 6 (some State.Full)))
      = some (Grid.mkDefault 5, false) := by
  refine ⟨c7_no_construction_validation.1 5 (some (Grid.mkDefault 5)) [badFit, badCmp] false 0,
    (c7_no_construction_validation.2.1 5 2 3 (by omega)).1,
    c7_no_construction_validation.2.2 5 0 0 5 0 State.Full (Grid.mkDefault 5)
      (Grid.mkDefault 5) _ _ (by decide) (by omega) ?_⟩
  rfl

/-! ### The `usize` cast and Radial neighbour lookups -/

theorem castUsize_idx {n x : Nat} (hx : x < n) (hn : n < 2 ^ 64) {d : Int}
    (hd : d = -1 ∨ d = 0 ∨ d = 1) :
    (0 ≤ (x : Int) + d → castUsize ((x : Int) + d) = ((x : Int) + d).toNat) ∧
    (¬ 0 ≤ (x : Int) + d → n ≤ castUsize ((x : Int) + d)) := by
  unfold castUsize
  rcases hd with rfl | rfl | rfl <;> constructor <;> intro h <;> omega

/-- A Radial neighbour lookup through the `usize` cast agrees with the
genuinely signed bounds-checked lookup: no wraparound. -/
theorem get_cell_castUsize {n : Nat} {g : Grid} (hsq : g.isSquare n) (hn : n < 2 ^ 64)
    {x y : Nat} (hx : x < n) (hy : y < n) {dx dy : Int}
    (hdx : dx = -1 ∨ dx = 0 ∨ dx = 1) (hdy : dy = -1 ∨ dy = 0 ∨ dy = 1) :
    g.get_cell (castUsize ((x : Int) + dx)) (castUsize ((y : Int) + dy)) =
      if 0 ≤ (x : Int) + dx ∧ (x : Int) + dx < (n : Int) ∧
          0 ≤ (y : Int) + dy ∧ (y : Int) + dy < (n : Int)
      then g.get_cell ((x : Int) + dx).toNat ((y : Int) + dy).toNat
      else none := by
  by_cases hcx : 0 ≤ (x : Int) + dx ∧ (x : Int) + dx < (n : Int)
  · by_cases hcy : 0 ≤ (y : Int) + dy ∧ (y : Int) + dy < (n : Int)
    · rw [if_pos ⟨hcx.1, hcx.2, hcy.1, hcy.2⟩,
        (castUsize_idx hx hn hdx).1 hcx.1, (castUsize_idx hy hn hdy).1 hcy.1]
    · rw [if_neg (by tauto)]
      apply Grid.get_cell_none hsq
      right
      by_cases h0y : 0 ≤ (y : Int) + dy
      · rw [(castUsize_idx hy hn hdy).1 h0y]
        omega
      · exact (castUsize_idx hy hn hdy).2 h0y
  · rw [if_neg (by tauto)]
    apply Grid.get_cell_none hsq
    left
    by_cases h0x : 0 ≤ (x : Int) + dx
    · rw [(castUsize_idx hx hn hdx).1 h0x]
      omega
    · exact (castUsize_idx hx hn hdx).2 h0x

theorem mooreOffsets_eq :
    mooreOffsets = [(-1, -1), (-1, 0), (-1, 1), (0, -1), (0, 1), (1, -1), (1, 0), (1, 1)] := by
  decide

/-- The spec's view of the Radial neighbour lookups: the eight Moore
offsets with genuinely signed coordinate arithmetic and an explicit
in-range check before the checked-safe lookup, keeping the present
neighbours.  (Second definition following the spec's words, for the
refinement comparison against `radialCells`.) -/
def specNeighbors (n : Nat) (active : Grid) (x y : Nat) : List State :=
  mooreOffsets.filterMap fun r =>
    if 0 ≤ (x : Int) + r.1 ∧ (x : Int) + r.1 < (n : Int) ∧
        0 ≤ (y : Int) + r.2 ∧ (y : Int) + r.2 < (n : Int)
    then active.get_cell ((x : Int) + r.1).toNat ((y : Int) + r.2).toNat
    else none

theorem mem_mooreOffsets_delta {r : Int × Int} (hr : r ∈ mooreOffsets) :
    (r.1 = -1 ∨ r.1 = 0 ∨ r.1 = 1) ∧ (r.2 = -1 ∨ r.2 = 0 ∨ r.2 = 1) := by
  rw [mooreOffsets_eq] at hr
  simp only [List.mem_cons, List.not_mem_nil, or_false] at hr
  rcases hr with rfl | rfl | rfl | rfl | rfl | rfl | rfl | rfl <;> simp

theorem radialCells_eq_specNeighbors {n : Nat} {active : Grid} {x y : Nat}
    (hsq : active.isSquare n) (hn : n < 2 ^ 64) (hx : x < n) (hy : y < n) :
    radialCells active x y = specNeighbors n active x y := by
  unfold radialCells specNeighbors
  rw [List.filterMap_map]
  apply List.filterMap_congr
  intro r hr
  obtain ⟨hdx, hdy⟩ := mem_mooreOffsets_delta hr
  exact get_cell_castUsize hsq hn hx hy hdx hdy

/-- The Radial rule semantics exactly as the spec words it: fire iff
the anchor equals `current_state` and every `(required_state,
Comparison)` pair's neighbour count (over the signed, bounds-checked
Moore lookups in the current grid only) satisfies its comparison; on
firing the anchor of the next-generation buffer is set to
`final_state`.  (Second definition following the spec's words, for the
refinement comparison against `Model.radial`.) -/
def radialSpec (n : Nat) (active : Grid) (cell : State) (x y : Nat) (inactive : Grid)
    (current_state : State) (surroundings : List (State × Comparison Nat))
    (final_state : State) : Option (Grid × Bool) :=
  if current_state = cell ∧ (surroundings.all fun sc =>
      sc.2.compare ((specNeighbors n active x y).filter fun val => val == sc.1).length) then
    (inactive.set_cell x y final_state).map fun g => (g, true)
  else
    some (inactive, false)

/-- C2: Radial rule application at an anchor agrees with the spec's
semantics: it fires iff the anchor cell equals `current_state` and
every neighbour-count comparison holds, with counts taken over exactly
the eight Moore offsets via checked-safe lookups against the current
grid only (edge and corner anchors naturally see fewer neighbours); on
firing the buffer anchor becomes `final_state`, and `true` is returned
iff the rule fired. -/
theorem c2_radial_rule_application (active inactive : Grid) (cell : State)
    (n x y : Nat) (cs : State) (surr : List (State × Comparison Nat)) (fs : State)
    (hsq : active.isSquare n) (hx : x < n) (hy : y < n) (hn : n < 2 ^ 64) :
    Model.radial active cell (x, y) inactive cs surr fs
      = radialSpec n active cell x y inactive cs surr fs := by
  have hcells := radialCells_eq_specNeighbors hsq hn hx hy
  unfold Model.radial radialSpec
  simp only [hcells]
  by_cases hc : cs = cell
  · by_cases hall : (surr.all fun sc =>
        sc.2.compare ((specNeighbors n active x y).filter fun val => val == sc.1).length)
        = true
    · rw [if_pos hc, if_pos hall, if_pos ⟨hc, hall⟩]
      cases hset : inactive.set_cell x y fs <;> simp [hset]
    · rw [if_pos hc, if_neg hall, if_neg fun h => hall h.2]
  · rw [if_neg hc, if_neg fun h => hc h.1]

/-- 3×3 all-Empty grid used to instantiate the Radial theorems. -/
def rGrid : Grid := Grid.mkDefault 3

theorem c2_radial_rule_application_witness :
    Model.radial rGrid State.Empty (1, 1) rGrid State.Empty
        [(State.Full, Comparison.Equal 0)] State.Full
      = radialSpec 3 rGrid State.Empty 1 1 rGrid State.Empty
        [(State.Full, Comparison.Equal 0)] State.Full :=
  c2_radial_rule_application rGrid rGrid State.Empty 3 1 1 State.Empty
    [(State.Full, Comparison.Equal 0)] State.Full (by decide) (by omega) (by omega)
    (by norm_num)

/-! ### C4: boundary safety of Radial neighbour counting -/

/-- The true number of in-range Moore neighbours of `(x, y)` on an
`n × n` grid, via genuinely signed coordinate arithmetic. -/
def trueMooreCount (n x y : Nat) : Nat :=
  (mooreOffsets.filter fun r =>
    decide (0 ≤ (x : Int) + r.1 ∧ (x : Int) + r.1 < (n : Int) ∧
      0 ≤ (y : Int) + r.2 ∧ (y : Int) + r.2 < (n : Int))).length

theorem specNeighbors_length {n : Nat} {active : Grid} {x y : Nat}
    (hsq : active.isSquare n) :
    (specNeighbors n active x y).length = trueMooreCount n x y := by
  unfold specNeighbors trueMooreCount
  rw [List.length_filterMap_eq_countP, ← List.countP_eq_length_filter]
  apply List.countP_congr
  intro r _
  by_cases hcond : 0 ≤ (x : Int) + r.1 ∧ (x : Int) + r.1 < (n : Int) ∧
      0 ≤ (y : Int) + r.2 ∧ (y : Int) + r.2 < (n : Int)
  · rw [if_pos hcond, decide_eq_true hcond]
    rw [Grid.get_cell_isSome hsq]
    exact iff_of_true (by omega) rfl
  · rw [if_neg hcond]
    simp [hcond]

theorem filter_sub_length (cand : List (Int × Int)) {p : Int × Int → Bool}
    (hsub : ∀ r ∈ mooreOffsets, p r = true → r ∈ cand) :
    (mooreOffsets.filter p).length ≤ cand.length := by
  have hnodup : (mooreOffsets.filter p).Nodup :=
    List.Nodup.filter p (by rw [mooreOffsets_eq]; decide)
  have hss : mooreOffsets.filter p ⊆ cand := by
    intro r hr
    rw [List.mem_filter] at hr
    exact hsub r hr.1 hr.2
  exact (hnodup.subperm hss).length_le

/-- C4: Radial neighbour counting is boundary safe.  For every square
grid, anchor and required state: the count of matching neighbours never
exceeds the true number of in-range Moore neighbours (so no absent or
wrapped-around position is ever counted), and that true number is at
most 8, at most 3 at a corner, and at most 5 on an edge. -/
theorem c4_radial_boundary_safety (active : Grid) (n x y : Nat) (s : State)
    (hsq : active.isSquare n) (hx : x < n) (hy : y < n) (hn : n < 2 ^ 64) :
    ((radialCells active x y).filter fun v => v == s).length ≤ trueMooreCount n x y ∧
    trueMooreCount n x y ≤ 8 ∧
    ((x = 0 ∨ x = n - 1) ∧ (y = 0 ∨ y = n - 1) → trueMooreCount n x y ≤ 3) ∧
    ((x = 0 ∨ x = n - 1 ∨ y = 0 ∨ y = n - 1) → trueMooreCount n x y ≤ 5) := by
  refine ⟨?_, ?_, ?_, ?_⟩
  · calc ((radialCells active x y).filter fun v => v == s).length
        ≤ (radialCells active x y).length := List.length_filter_le _ _
      _ = (specNeighbors n active x y).length := by
          rw [radialCells_eq_specNeighbors hsq hn hx hy]
      _ = trueMooreCount n x y := specNeighbors_length hsq
  · calc trueMooreCount n x y ≤ mooreOffsets.length := List.length_filter_le _ _
      _ = 8 := by rw [mooreOffsets_eq]; rfl
  · rintro ⟨hcx, hcy⟩
    unfold trueMooreCount
    rcases hcx with rfl | rfl <;> rcases hcy with hy0 | hyn
    · subst hy0
      refine le_trans (filter_sub_length [(0, 1), (1, 0), (1, 1)] ?_) (by rfl)
      intro r hr hp
      rw [decide_eq_true_eq] at hp
      obtain ⟨h1, h2, h3, h4⟩ := hp
      rw [mooreOffsets_eq] at hr
      simp only [List.mem_cons, List.not_mem_nil, or_false] at hr
      rcases hr with rfl | rfl | rfl | rfl | rfl | rfl | rfl | rfl <;> simp_all
    · subst hyn
      refine le_trans (filter_sub_length [(0, -1), (1, -1), (1, 0)] ?_) (by rfl)
      intro r hr hp
      rw [decide_eq_true_eq] at hp
      obtain ⟨h1, h2, h3, h4⟩ := hp
      rw [mooreOffsets_eq] at hr
      simp only [List.mem_cons, List.not_mem_nil, or_false] at hr
      rcases hr with rfl | rfl | rfl | rfl | rfl | rfl | rfl | rfl <;> simp_all
    · subst hy0
      refine le_trans (filter_sub_length [(-1, 0), (-1, 1), (0, 1)] ?_) (by rfl)
      intro r hr hp
      rw [decide_eq_true_eq] at hp
      obtain ⟨h1, h2, h3, h4⟩ := hp
      rw [mooreOffsets_eq] at hr
      simp only [List.mem_cons, List.not_mem_nil, or_false] at hr
      rcases hr with rfl | rfl | rfl | rfl | rfl | rfl | rfl | rfl <;> simp_all
    · subst hyn
      refine le_trans (filter_sub_length [(-1, -1), (-1, 0), (0, -1)] ?_) (by rfl)
      intro r hr hp
      rw [decide_eq_true_eq] at hp
      obtain ⟨h1, h2, h3, h4⟩ := hp
      rw [mooreOffsets_eq] at hr
      simp only [List.mem_cons, List.not_mem_nil, or_false] at hr
      rcases hr with rfl | rfl | rfl | rfl | rfl | rfl | rfl | rfl <;> simp_all
  · intro hedge
    unfold trueMooreCount
    rcases hedge with rfl | rfl | rfl | rfl
    · refine le_trans
        (filter_sub_length [(0, -1), (0, 1), (1, -1), (1, 0), (1, 1)] ?_) (by rfl)
      intro r hr hp
      rw [decide_eq_true_eq] at hp
      obtain ⟨h1, h2, h3, h4⟩ := hp
      rw [mooreOffsets_eq] at hr
      simp only [List.mem_cons, List.not_mem_nil, or_false] at hr
      rcases hr with rfl | rfl | rfl | rfl | rfl | rfl | rfl | rfl <;> simp_all
    · refine le_trans
        (filter_sub_length [(-1, -1), (-1, 0), (-1, 1), (0, -1), (0, 1)] ?_) (by rfl)
      intro r hr hp
      rw [decide_eq_true_eq] at hp
      obtain ⟨h1, h2, h3, h4⟩ := hp
      rw [mooreOffsets_eq] at hr
      simp only [List.mem_cons, List.not_mem_nil, or_false] at hr
      rcases hr with rfl | rfl | rfl | rfl | rfl | rfl | rfl | rfl <;> simp_all
    · refine le_trans
        (filter_sub_length [(-1, 0), (-1, 1), (0, 1), (1, 0), (1, 1)] ?_) (by rfl)
      intro r hr hp
      rw [decide_eq_true_eq] at hp
      obtain ⟨h1, h2, h3, h4⟩ := hp
      rw [mooreOffsets_eq] at hr
      simp only [List.mem_cons, List.not_mem_nil, or_false] at hr
      rcases hr with rfl | rfl | rfl | rfl | rfl | rfl | rfl | rfl <;> simp_all
    · refine le_trans
        (filter_sub_length [(-1, -1), (-1, 0), (0, -1), (1, -1), (1, 0)] ?_) (by rfl)
      intro r hr hp
      rw [decide_eq_true_eq] at hp
      obtain ⟨h1, h2, h3, h4⟩ := hp
      rw [mooreOffsets_eq] at hr
      simp only [List.mem_cons, List.not_mem_nil, or_false] at hr
      rcases hr with rfl | rfl | rfl | rfl | rfl | rfl | rfl | rfl <;> simp_all

theorem c4_radial_boundary_safety_witness :
    (((radialCells rGrid 0 0).filter fun v => v == State.Full).length
        ≤ trueMooreCount 3 0 0) ∧
    trueMooreCount 3 0 0 ≤ 8 ∧
    ((0 = 0 ∨ 0 = 3 - 1) ∧ (0 = 0 ∨ 0 = 3 - 1) → trueMooreCount 3 0 0 ≤ 3) ∧
    ((0 = 0 ∨ 0 = 3 - 1 ∨ 0 = 0 ∨ 0 = 3 - 1) → trueMooreCount 3 0 0 ≤ 5) :=
  c4_radial_boundary_safety rGrid 3 0 0 State.Full (by decide) (by omega) (by omega)
    (by norm_num)

/-! ### Scan order of `indexed_iter` -/

/-- Column-major enumeration of the coordinates of an `n × n` grid:
outer loop `x` ascending, inner loop `y` ascending. -/
def colMajor (n : Nat) : List (Nat × Nat) :=
  (List.range n).flatMap fun i => (List.range n).map fun j => (i, j)

theorem pairwise_flatMap_of {α β : Type} {R : β → β → Prop} {S : α → α → Prop}
    {f : α → List β} :
    ∀ {l : List α}, l.Pairwise S →
    (∀ a ∈ l, (f a).Pairwise R) →
    (∀ a b, S a b → ∀ x ∈ f a, ∀ z ∈ f b, R x z) →
    (l.flatMap f).Pairwise R := by
  intro l hl
  induction hl with
  | nil => intro _ _; simp
  | cons hS _ ih =>
    rename_i a t _
    intro hin hcross
    rw [List.flatMap_cons, List.pairwise_append]
    refine ⟨hin a (List.mem_cons_self a t),
      ih (fun b hb => hin b (List.mem_cons_of_mem a hb)) hcross, ?_⟩
    intro x hx z hz
    rw [List.mem_flatMap] at hz
    obtain ⟨b, hb, hzb⟩ := hz
    exact hcross a b (hS b hb) x hx z hzb

theorem colMajor_pairwise (n : Nat) :
    (colMajor n).Pairwise fun a b => a.1 < b.1 ∨ (a.1 = b.1 ∧ a.2 < b.2) := by
  unfold colMajor
  refine pairwise_flatMap_of (S := (· < ·)) (List.pairwise_lt_range n) ?_ ?_
  · intro i _
    rw [List.pairwise_map]
    exact (List.pairwise_lt_range n).imp fun h => Or.inr ⟨rfl, h⟩
  · intro i1 i2 hlt x hx z hz
    rw [List.mem_map] at hx hz
    obtain ⟨j1, _, hj1⟩ := hx
    obtain ⟨j2, _, hj2⟩ := hz
    subst hj1
    subst hj2
    exact Or.inl hlt

theorem colMajor_nodup (n : Nat) : (colMajor n).Nodup := by
  refine (colMajor_pairwise n).imp ?_
  intro a b hab heq
  subst heq
  rcases hab with h | ⟨_, h⟩ <;> omega

theorem mem_colMajor {n i j : Nat} : (i, j) ∈ colMajor n ↔ i < n ∧ j < n := by
  unfold colMajor
  rw [List.mem_flatMap]
  constructor
  · rintro ⟨a, ha, hin⟩
    rw [List.mem_map] at hin
    obtain ⟨b, hb, heq⟩ := hin
    rw [List.mem_range] at ha hb
    rw [Prod.mk.injEq] at heq
    omega
  · rintro ⟨hi, hj⟩
    exact ⟨i, List.mem_range.mpr hi, List.mem_map.mpr ⟨j, List.mem_range.mpr hj, rfl⟩⟩

theorem indexed_iter_aux (n : Nat) :
    ∀ (p : List (List State)) (k : Nat), (∀ col ∈ p, col.length = n) →
      ((p.enumFrom k).flatMap fun pc => pc.2.enum.map fun qc => (pc.1, qc.1, qc.2)).map
        (fun e => ((e.1 : Nat), (e.2.1 : Nat)))
      = (List.range' k p.length).flatMap fun i => (List.range n).map fun j => (i, j) := by
  intro p
  induction p with
  | nil => intro k _; rfl
  | cons col t ih =>
    intro k h
    rw [List.enumFrom_cons, List.flatMap_cons, List.map_append,
      ih (k + 1) (fun c hc => h c (List.mem_cons_of_mem col hc)),
      show (col :: t).length = t.length + 1 from rfl, List.range'_succ, List.flatMap_cons]
    congr 1
    rw [List.map_map]
    have hcl : col.length = n := h col (List.mem_cons_self col t)
    rw [← hcl, ← List.enum_map_fst col, List.map_map]
    rfl

theorem indexed_iter_proj {n : Nat} {g : Grid} (hsq : g.isSquare n) :
    (g.indexed_iter.map fun e => ((e.1 : Nat), (e.2.1 : Nat))) = colMajor n := by
  unfold Grid.indexed_iter colMajor
  have haux := indexed_iter_aux n g 0 hsq.2
  rw [show g.enum = g.enumFrom 0 from rfl, haux, hsq.1, List.range_eq_range' n]

theorem mem_indexed_iter {g : Grid} {x y : Nat} {s : State} :
    (x, y, s) ∈ g.indexed_iter ↔ g.get_cell x y = some s := by
  unfold Grid.indexed_iter
  rw [List.mem_flatMap]
  constructor
  · rintro ⟨pc, hpc, hin⟩
    rw [List.mem_map] at hin
    obtain ⟨qc, hqc, heq⟩ := hin
    rw [Prod.mk.injEq] at heq
    obtain ⟨h1, heq2⟩ := heq
    rw [Prod.mk.injEq] at heq2
    obtain ⟨h2, h3⟩ := heq2
    subst h1
    subst h2
    subst h3
    rw [List.mem_enum_iff_getElem?] at hpc hqc
    unfold Grid.get_cell Grid.get_col
    rw [List.get?_eq_getElem?, hpc, Option.some_bind, List.get?_eq_getElem?, hqc]
  · intro h
    unfold Grid.get_cell Grid.get_col at h
    cases hcol : g.get? x with
    | none => rw [hcol, Option.none_bind] at h; exact Option.noConfusion h
    | some col =>
      rw [hcol, Option.some_bind] at h
      refine ⟨(x, col), ?_, ?_⟩
      · rw [List.mem_enum_iff_getElem?]
        rw [List.get?_eq_getElem?] at hcol
        exact hcol
      · rw [List.mem_map]
        refine ⟨(y, s), ?_, rfl⟩
        rw [List.mem_enum_iff_getElem?]
        rw [List.get?_eq_getElem?] at h
        exact h

/-! ### Radial passes and the tick loop -/

theorem radial_total {n : Nat} {buf : Grid} (hsq : buf.isSquare n)
    (active : Grid) (c : State) {i j : Nat} (hi : i < n) (hj : j < n)
    (cs : State) (surr : List (State × Comparison Nat)) (fs : State) :
    ∃ b2 bl, Model.radial active c (i, j) buf cs surr fs = some (b2, bl) ∧
      b2.isSquare n ∧
      (∀ a b : Nat, (a, b) ≠ (i, j) → b2.get_cell a b = buf.get_cell a b) ∧
      (c = cs → (surr.all fun sc =>
          sc.2.compare ((radialCells active i j).filter fun v => v == sc.1).length) = true →
        b2.get_cell i j = some fs) := by
  unfold Model.radial
  by_cases hc : cs = c
  · by_cases hall : (surr.all fun sc =>
        sc.2.compare ((radialCells active i j).filter fun v => v == sc.1).length) = true
    · obtain ⟨g2, hset⟩ := Grid.set_cell_some hsq hi hj fs
      refine ⟨g2, true, ?_, Grid.set_cell_isSquare hsq hset, ?_, ?_⟩
      · rw [if_pos hc, if_pos hall, hset]
      · intro a b hab
        exact Grid.get_set_other hset hab
      · intro _ _
        exact Grid.get_set_same hset
    · refine ⟨buf, false, ?_, hsq, fun a b _ => rfl, ?_⟩
      · rw [if_pos hc, if_neg hall]
      · intro _ h
        exact absurd h hall
  · refine ⟨buf, false, ?_, hsq, fun a b _ => rfl, ?_⟩
    · rw [if_neg hc]
    · intro h
      exact absurd h.symm hc

theorem radial_pass_frame {n : Nat} (active : Grid) (cs : State)
    (surr : List (State × Comparison Nat)) (fs : State) (x y : Nat) :
    ∀ (entries : List (Nat × Nat × State)) (buf : Grid), buf.isSquare n →
    (∀ e ∈ entries, e.1 < n ∧ e.2.1 < n) →
    (∀ e ∈ entries, ((e.1 : Nat), (e.2.1 : Nat)) ≠ (x, y)) →
    ∃ final, entries.foldlM (fun b e =>
        (applyRule active (Rule.Radial cs surr fs) b e.1 e.2.1 e.2.2).map Prod.fst) buf
      = some final ∧ final.isSquare n ∧ final.get_cell x y = buf.get_cell x y := by
  intro entries
  induction entries with
  | nil =>
    intro buf hsq _ _
    exact ⟨buf, rfl, hsq, rfl⟩
  | cons e0 t ih =>
    intro buf hsq hbnd hne
    obtain ⟨hi, hj⟩ := hbnd e0 (List.mem_cons_self e0 t)
    obtain ⟨b2, bl, happ, hsq2, hframe, _⟩ := radial_total hsq active e0.2.2 hi hj cs surr fs
    have hstep : (applyRule active (Rule.Radial cs surr fs) buf e0.1 e0.2.1 e0.2.2).map Prod.fst
        = some b2 := by
      show (Model.radial active e0.2.2 (e0.1, e0.2.1) buf cs surr fs).map Prod.fst = some b2
      rw [happ]
      rfl
    rw [List.foldlM_cons, hstep]
    obtain ⟨final, hfold, hsqf, hgetf⟩ := ih b2 hsq2
      (fun e he => hbnd e (List.mem_cons_of_mem e0 he))
      (fun e he => hne e (List.mem_cons_of_mem e0 he))
    refine ⟨final, hfold, hsqf, ?_⟩
    rw [hgetf]
    exact hframe x y fun h => hne e0 (List.mem_cons_self e0 t) (by rw [h])

theorem radial_pass_fires {n : Nat} (active : Grid) (cs : State)
    (surr : List (State × Comparison Nat)) (fs : State) (x y : Nat)
    (hfire : (surr.all fun sc =>
      sc.2.compare ((radialCells active x y).filter fun v => v == sc.1).length) = true) :
    ∀ (entries : List (Nat × Nat × State)) (buf : Grid), buf.isSquare n →
    (∀ e ∈ entries, e.1 < n ∧ e.2.1 < n) →
    ((entries.map fun e => ((e.1 : Nat), (e.2.1 : Nat))).Nodup) →
    (x, y, cs) ∈ entries →
    ∃ final, entries.foldlM (fun b e =>
        (applyRule active (Rule.Radial cs surr fs) b e.1 e.2.1 e.2.2).map Prod.fst) buf
      = some final ∧ final.isSquare n ∧ final.get_cell x y = some fs := by
  intro entries
  induction entries with
  | nil =>
    intro buf _ _ _ hmem
    exact absurd hmem (List.not_mem_nil _)
  | cons e0 t ih =>
    intro buf hsq hbnd hnodup hmem
    obtain ⟨hi, hj⟩ := hbnd e0 (List.mem_cons_self e0 t)
    rw [List.map_cons, List.nodup_cons] at hnodup
    obtain ⟨hnotin, hnodup2⟩ := hnodup
    rcases List.mem_cons.mp hmem with heq | hmem2
    · obtain ⟨b2, bl, happ, hsq2, _, hfired⟩ :=
        radial_total hsq active e0.2.2 hi hj cs surr fs
    -- the head entry is the anchor: the rule fires there
      have he0 : e0 = ((x, y, cs) : Nat × Nat × State) := heq.symm
      subst he0
      have hb2 : b2.get_cell x y = some fs := hfired rfl hfire
      have hstep : (applyRule active (Rule.Radial cs surr fs) buf x y cs).map Prod.fst
          = some b2 := by
        show (Model.radial active cs (x, y) buf cs surr fs).map Prod.fst = some b2
        rw [happ]
        rfl
      rw [List.foldlM_cons]
      rw [show ((x, y, cs) : Nat × Nat × State).1 = x from rfl]
      obtain ⟨final, hfold, hsqf, hgetf⟩ := radial_pass_frame active cs surr fs x y t b2 hsq2
        (fun e he => hbnd e (List.mem_cons_of_mem _ he))
        (fun e he hc => hnotin (by rw [← hc]; exact List.mem_map_of_mem _ he))
      refine ⟨final, by rw [hstep]; exact hfold, hsqf, by rw [hgetf, hb2]⟩
    · obtain ⟨b2, bl, happ, hsq2, _, _⟩ := radial_total hsq active e0.2.2 hi hj cs surr fs
      have hstep : (applyRule active (Rule.Radial cs surr fs) buf e0.1 e0.2.1 e0.2.2).map Prod.fst
          = some b2 := by
        show (Model.radial active e0.2.2 (e0.1, e0.2.1) buf cs surr fs).map Prod.fst = some b2
        rw [happ]
        rfl
      rw [List.foldlM_cons, hstep]
      exact ih b2 hsq2 (fun e he => hbnd e (List.mem_cons_of_mem e0 he)) hnodup2 hmem2

theorem radial_isSquare {n : Nat} {active buf g2 : Grid} {c cs fs : State}
    {surr : List (State × Comparison Nat)} {i j : Nat} {bl : Bool}
    (hsq : buf.isSquare n)
    (h : Model.radial active c (i, j) buf cs surr fs = some (g2, bl)) :
    g2.isSquare n := by
  unfold Model.radial at h
  by_cases hc : cs = c
  · rw [if_pos hc] at h
    by_cases hall : (surr.all fun sc =>
        sc.2.compare ((radialCells active i j).filter fun v => v == sc.1).length) = true
    · rw [if_pos hall] at h
      cases hset : buf.set_cell i j fs with
      | none => rw [hset] at h; exact Option.noConfusion h
      | some g3 =>
        rw [hset] at h
        cases h
        exact Grid.set_cell_isSquare hsq hset
    · rw [if_neg hall] at h
      cases h
      exact hsq
  · rw [if_neg hc] at h
    cases h
    exact hsq

theorem applyRule_isSquare {n : Nat} {active buf g2 : Grid} {rule : Rule}
    {i j : Nat} {c : State} {bl : Bool} (hsq : buf.isSquare n)
    (h : applyRule active rule buf i j c = some (g2, bl)) : g2.isSquare n := by
  cases rule with
  | Linear in_state out_state => exact linear_isSquare hsq h
  | Radial cs surr fs => exact radial_isSquare hsq h

theorem foldApply_isSquare {n : Nat} {active : Grid} {rule : Rule} :
    ∀ (entries : List (Nat × Nat × State)) (buf final : Grid), buf.isSquare n →
    entries.foldlM (fun b e =>
        (applyRule active rule b e.1 e.2.1 e.2.2).map Prod.fst) buf = some final →
    final.isSquare n := by
  intro entries
  induction entries with
  | nil =>
    intro buf final hsq hfold
    cases hfold
    exact hsq
  | cons e0 t ih =>
    intro buf final hsq hfold
    rw [List.foldlM_cons] at hfold
    cases happ : applyRule active rule buf e0.1 e0.2.1 e0.2.2 with
    | none =>
      rw [happ] at hfold
      exact Option.noConfusion hfold
    | some pr =>
      rw [happ] at hfold
      exact ih pr.1 final (applyRule_isSquare hsq (by rw [happ])) hfold

theorem tickPass_isSquare {n : Nat} {active buf final : Grid} {rule : Rule}
    (hsq : buf.isSquare n) (h : tickPass active rule buf = some final) :
    final.isSquare n :=
  foldApply_isSquare active.indexed_iter buf final hsq h

theorem tick_isSquare {n : Nat} {active : Grid} :
    ∀ (rules : List Rule) {buf final : Grid}, buf.isSquare n →
    rules.foldlM (fun inactive rule => tickPass active rule inactive) buf = some final →
    final.isSquare n := by
  intro rules
  induction rules with
  | nil =>
    intro buf final hb hfold
    cases hfold
    exact hb
  | cons r t ih =>
    intro buf final hb hfold
    rw [List.foldlM_cons] at hfold
    cases hp : tickPass active r buf with
    | none =>
      rw [hp] at hfold
      exact Option.noConfusion hfold
    | some b2 =>
      rw [hp] at hfold
      exact ih (tickPass_isSquare hb hp) hfold

theorem tick_append (active : Grid) (l : List Rule) (r : Rule) :
    tick active (l ++ [r])
      = (tick active l).bind fun buf => tickPass active r buf := by
  unfold tick
  rw [List.foldlM_append]
  cases hl : l.foldlM (fun inactive rule => tickPass active rule inactive) active with
  | none => rfl
  | some buf =>
    show (tickPass active r buf).bind (fun b => some b) = tickPass active r buf
    cases tickPass active r buf <;> rfl

/-! ### C3: tick order -/

/-- C3: a non-gated tick applies each rule in list order (outer loop)
to each cell of the grid in the deterministic column-major scan order
of `indexed_iter` — outer `x` ascending, inner `y` ascending, every
cell exactly once, with each scanned triple carrying that cell's
current-grid state — threading one next-generation buffer seeded from
the current grid; consequently, when a Radial rule placed later in the
list fires at an anchor, it determines the anchor's state in the
resulting grid regardless of what earlier rules wrote there. -/
theorem c3_tick_order :
    (∀ (n : Nat) (g : Grid), g.isSquare n →
      (g.indexed_iter.map fun e => ((e.1 : Nat), (e.2.1 : Nat))) = colMajor n) ∧
    (∀ n : Nat, (colMajor n).Nodup ∧ ∀ i j : Nat, ((i, j) ∈ colMajor n ↔ i < n ∧ j < n)) ∧
    (∀ (g : Grid) (x y : Nat) (s : State),
      ((x, y, s) : Nat × Nat × State) ∈ g.indexed_iter ↔ g.get_cell x y = some s) ∧
    (∀ (n : Nat) (active buf : Grid) (l : List Rule) (cs : State)
        (surr : List (State × Comparison Nat)) (fs : State) (x y : Nat),
      active.isSquare n → x < n → y < n →
      active.get_cell x y = some cs →
      (surr.all fun sc =>
        sc.2.compare ((radialCells active x y).filter fun v => v == sc.1).length) = true →
      tick active l = some buf →
      ∃ final, tick active (l ++ [Rule.Radial cs surr fs]) = some final ∧
        final.get_cell x y = some fs) := by
  refine ⟨fun n g hsq => indexed_iter_proj hsq,
    fun n => ⟨colMajor_nodup n, fun i j => mem_colMajor⟩,
    fun g x y s => mem_indexed_iter, ?_⟩
  intro n active buf l cs surr fs x y hsq hx hy hcell hfire htick
  have hbufsq : buf.isSquare n := tick_isSquare l hsq htick
  have hbounds : ∀ e ∈ active.indexed_iter, e.1 < n ∧ e.2.1 < n := by
    intro e he
    have : active.get_cell e.1 e.2.1 = some e.2.2 := by
      have he2 : ((e.1, e.2.1, e.2.2) : Nat × Nat × State) ∈ active.indexed_iter := he
      exact mem_indexed_iter.mp he2
    exact Grid.get_cell_bounds hsq this
  have hnodup : (active.indexed_iter.map fun e => ((e.1 : Nat), (e.2.1 : Nat))).Nodup := by
    rw [indexed_iter_proj hsq]
    exact colMajor_nodup n
  have hmem : ((x, y, cs) : Nat × Nat × State) ∈ active.indexed_iter :=
    mem_indexed_iter.mpr hcell
  obtain ⟨final, hfold, _, hget⟩ := radial_pass_fires active cs surr fs x y hfire
    active.indexed_iter buf hbufsq hbounds hnodup hmem
  refine ⟨final, ?_, hget⟩
  rw [tick_append, htick]
  exact hfold

theorem c3_tick_order_witness :
    ((Grid.mkDefault 1).indexed_iter.map fun e => ((e.1 : Nat), (e.2.1 : Nat)))
        = colMajor 1 ∧
    (colMajor 2).Nodup ∧
    (((1, 1, State.Empty) : Nat × Nat × State) ∈ rGrid.indexed_iter ↔
      rGrid.get_cell 1 1 = some State.Empty) ∧
    ∃ final, tick rGrid ([] ++ [Rule.Radial State.Empty [] State.Full]) = some final ∧
      final.get_cell 1 1 = some State.Full := by
  refine ⟨c3_tick_order.1 1 (Grid.mkDefault 1) (by decide),
    (c3_tick_order.2.1 2).1,
    c3_tick_order.2.2.1 rGrid 1 1 State.Empty,
    c3_tick_order.2.2.2 3 rGrid rGrid [] State.Empty [] State.Full 1 1 (by decide)
      (by omega) (by omega) (by decide) rfl rfl⟩

/-! ### C5: determinism -/

/-- C5: the generation advance is a pure function of the current grid
and the rule list: two runs from equal seeds with equal rule lists and
equal tick counts produce identical grid sequences. -/
theorem c5_determinism (g1 g2 : Grid) (r1 r2 : List Rule) (k1 k2 : Nat)
    (hg : g1 = g2) (hr : r1 = r2) (hk : k1 = k2) :
    tick g1 r1 = tick g2 r2 ∧ gridSeq r1 g1 k1 = gridSeq r2 g2 k2 := by
  subst hg
  subst hr
  subst hk
  exact ⟨rfl, rfl⟩

/-! ### C6: pause and pacing gate -/

/-- C6: when the engine is paused, or less than the 50 ms pacing floor
has elapsed since the last tick, `update` returns the model completely
unchanged (the premature tick is dropped, not queued); in particular
with `paused = true` any number of `update` calls leave the model — and
hence the grid — unchanged. -/
theorem c6_pause_gating :
    (∀ (now : Nat) (m : Model), m.paused = true ∨ now - m.last < 50 →
      update now m = some m) ∧
    (∀ (ks : List Nat) (m : Model), m.paused = true → updateRun ks m = some m) := by
  have hgate : ∀ (now : Nat) (m : Model), m.paused = true ∨ now - m.last < 50 →
      update now m = some m := by
    intro now m h
    rcases h with h | h
    · simp [update, h]
    · simp [update, h]
  refine ⟨hgate, ?_⟩
  intro ks
  induction ks with
  | nil =>
    intro m _
    rfl
  | cons k t ih =>
    intro m h
    unfold updateRun
    rw [List.foldlM_cons, hgate k m (Or.inl h)]
    exact ih m h

/-- A concrete paused engine. -/
def pModel : Model :=
  { active := rGrid, rules := [], last := 0, paused := true, fill_state := State.Empty }

theorem c6_pause_gating_witness :
    update 100 pModel = some pModel ∧
    updateRun [60, 120, 180] pModel = some pModel :=
  ⟨c6_pause_gating.1 100 pModel (Or.inl rfl),
    c6_pause_gating.2 [60, 120, 180] pModel rfl⟩

theorem c5_determinism_witness :
    tick rGrid [] = tick rGrid [] ∧
    gridSeq [] rGrid 3 = gridSeq [] rGrid 3 :=
  c5_determinism rGrid rGrid [] [] 3 3 rfl rfl rfl

/-! ### C8: the Game-of-Life glider -/

/-- The 5×5 glider seed: Full exactly at
`{(1,0), (2,1), (0,2), (1,2), (2,2)}` (columns listed `x = 0..4`). -/
def gliderSeed : Grid :=
  [[State.Empty, State.Empty, State.Full, State.Empty, State.Empty],
   [State.Full, State.Empty, State.Full, State.Empty, State.Empty],
   [State.Empty, State.Full, State.Full, State.Empty, State.Empty],
   [State.Empty, State.Empty, State.Empty, State.Empty, State.Empty],
   [State.Empty, State.Empty, State.Empty, State.Empty, State.Empty]]

/-- The three Radial Game-of-Life rules: birth on exactly 3 Full
neighbours, death below 2, death above 3. -/
def golRules : List Rule :=
  [Rule.Radial State.Empty [(State.Full, Comparison.Equal 3)] State.Full,
   Rule.Radial State.Full [(State.Full, Comparison.LessThan 2)] State.Empty,
   Rule.Radial State.Full [(State.Full, Comparison.GreaterThan 3)] State.Empty]

/-- The glider seed translated by `(+1, +1)`: Full exactly at
`{(2,1), (3,2), (1,3), (2,3), (3,3)}`. -/
def gliderTarget : Grid :=
  [[State.Empty, State.Empty, State.Empty, State.Empty, State.Empty],
   [State.Empty, State.Empty, State.Empty, State.Full, State.Empty],
   [State.Empty, State.Full, State.Empty, State.Full, State.Empty],
   [State.Empty, State.Empty, State.Full, State.Full, State.Empty],
   [State.Empty, State.Empty, State.Empty, State.Empty, State.Empty]]

/-- C8: four non-gated ticks of the three Game-of-Life Radial rules on
the 5×5 glider seed yield exactly the grid whose Full cells are the
seed glider translated by one cell along its diagonal. -/
theorem c8_glider :
    tickN golRules gliderSeed 4 = some gliderTarget ∧
    (∀ x y : Fin 5, gliderTarget.get_cell x y = some State.Full ↔
      1 ≤ (x : Nat) ∧ 1 ≤ (y : Nat) ∧
        gliderSeed.get_cell ((x : Nat) - 1) ((y : Nat) - 1) = some State.Full) := by
  constructor
  · decide
  · decide

/-! ### C9: the State cycle -/

/-- C9: the default State is Empty; `next` swaps Empty and Full;
`prev` is the identical 2-cycle, and both compositions are the
identity, so cycling the paint value either way has the same effect. -/
theorem c9_state_cycle :
    State.default = State.Empty ∧
    State.next State.Empty = State.Full ∧
    State.next State.Full = State.Empty ∧
    (∀ s : State, State.prev s = State.next s) ∧
    (∀ s : State, State.next (State.next s) = s) ∧
    (∀ s : State, State.prev (State.prev s) = s) := by
  refine ⟨rfl, rfl, rfl, ?_, ?_, ?_⟩ <;> intro s <;> cases s <;> rfl

end CellAuto
